import Mathlib

/-!
Verification of the PetTracer integration core (custom_components/pettracer).

The definitions below are a shallow embedding of the Python source:
pure numeric helpers become functions over ℤ/ℚ (Python float arithmetic is
modelled exactly over ℚ; Python's round is banker's rounding, modelled by
pyRound), Python str becomes List Char, dicts with a fixed set of relevant
keys become structures of Option-fields (none = key absent), and the
cooperative asyncio interleaving of `_ensure_authenticated` becomes an
explicit scheduler over task phases whose suspension points are exactly the
awaits in the source.
-/

/-- Python's built-in round (round half to even), modelled on ℚ.
round(2.5) = 2, round(1.5) = 2, round(-0.5) = 0. -/
def pyRound (q : ℚ) : ℤ :=
  if q - ⌊q⌋ < 1/2 then ⌊q⌋
  else if 1/2 < q - ⌊q⌋ then ⌊q⌋ + 1
  else if ⌊q⌋ % 2 = 0 then ⌊q⌋ else ⌊q⌋ + 1

lemma le_pyRound (q : ℚ) : ⌊q⌋ ≤ pyRound q := by
  unfold pyRound
  split
  · exact le_refl _
  · split
    · exact le_of_lt (lt_add_one _)
    · split
      · exact le_refl _
      · exact le_of_lt (lt_add_one _)

lemma pyRound_le_ceil (q : ℚ) : pyRound q ≤ ⌈q⌉ := by
  have hfc : ⌊q⌋ ≤ ⌈q⌉ := Int.floor_le_ceil q
  unfold pyRound
  split
  · exact hfc
  · rename_i h1
    have hlt : (⌊q⌋ : ℚ) < q := by
      have : (1:ℚ)/2 ≤ q - ⌊q⌋ := le_of_not_lt h1
      linarith
    have hc : ⌊q⌋ + 1 ≤ ⌈q⌉ := Int.add_one_le_iff.mpr (Int.lt_ceil.mpr hlt)
    split
    · exact hc
    · split
      · exact hfc
      · exact hc

/-- If n ≤ q < n + 1/2 then Python round gives n. -/
lemma pyRound_eq_low (q : ℚ) (n : ℤ) (h1 : (n : ℚ) ≤ q) (h2 : q < (n : ℚ) + 1/2) :
    pyRound q = n := by
  have hf : ⌊q⌋ = n := by
    apply Int.floor_eq_iff.mpr
    constructor
    · exact h1
    · linarith
  unfold pyRound
  rw [hf, if_pos (by linarith : q - (n : ℚ) < 1/2)]

/-- If n + 1/2 < q ≤ n + 1 then Python round gives n + 1. -/
lemma pyRound_eq_high (q : ℚ) (n : ℤ) (h1 : (n : ℚ) + 1/2 < q) (h2 : q ≤ (n : ℚ) + 1) :
    pyRound q = n + 1 := by
  rcases eq_or_lt_of_le h2 with heq | hlt
  · have hf : ⌊q⌋ = n + 1 := by
      apply Int.floor_eq_iff.mpr
      constructor
      · push_cast; linarith
      · push_cast; linarith
    unfold pyRound
    rw [hf, if_pos (by push_cast; linarith : q - (((n + 1 : ℤ)) : ℚ) < 1/2)]
  · have hf : ⌊q⌋ = n := by
      apply Int.floor_eq_iff.mpr
      constructor
      · linarith
      · linarith
    unfold pyRound
    rw [hf, if_neg (by linarith : ¬ (q - (n : ℚ) < 1/2)),
      if_pos (by linarith : (1:ℚ)/2 < q - (n : ℚ))]

lemma pyRound_intCast (m : ℤ) : pyRound (m : ℚ) = m := by
  apply pyRound_eq_low
  · exact le_refl _
  · linarith

/-- If q < B - 1/2, Python round stays strictly below B. -/
lemma pyRound_lt (q : ℚ) (B : ℤ) (h : q < (B : ℚ) - 1/2) : pyRound q < B := by
  have hfq : (⌊q⌋ : ℚ) ≤ q := Int.floor_le q
  have hfb : ⌊q⌋ < B := by
    have : (⌊q⌋ : ℚ) < (B : ℚ) := by linarith
    exact_mod_cast this
  unfold pyRound
  split
  · exact hfb
  · rename_i h1
    have hhalf : (1:ℚ)/2 ≤ q - ⌊q⌋ := le_of_not_lt h1
    have : (⌊q⌋ : ℚ) + 1 < (B : ℚ) := by linarith
    have hb : ⌊q⌋ + 1 < B := by exact_mod_cast this
    split
    · exact hb
    · split
      · exact lt_trans (lt_add_one _) hb
      · exact hb

/-- If B - 1/2 < q, Python round reaches at least B. -/
lemma le_pyRound_of (q : ℚ) (B : ℤ) (h : (B : ℚ) - 1/2 < q) : B ≤ pyRound q := by
  have hq1 : q < ⌊q⌋ + 1 := Int.lt_floor_add_one q
  unfold pyRound
  split
  · rename_i h1
    have hc : (B : ℚ) < (⌊q⌋ : ℚ) + 1 := by linarith
    have hb : B < ⌊q⌋ + 1 := by exact_mod_cast hc
    omega
  · split
    · have h3 : (B : ℚ) < (⌊q⌋ : ℚ) + 2 := by linarith
      have hb : B < ⌊q⌋ + 2 := by exact_mod_cast h3
      omega
    · rename_i h1 h2
      have hle : q - ⌊q⌋ ≤ 1/2 := le_of_not_lt h2
      have h3 : (B : ℚ) < (⌊q⌋ : ℚ) + 1 := by linarith
      have hb : B ≤ ⌊q⌋ := by
        have h4 : B < ⌊q⌋ + 1 := by exact_mod_cast h3
        omega
      split
      · exact hb
      · omega

/-- Python round lands within one half of its argument. -/
lemma pyRound_close (q : ℚ) : |((pyRound q : ℤ) : ℚ) - q| ≤ 1/2 := by
  have h1 : (⌊q⌋ : ℚ) ≤ q := Int.floor_le q
  have h2 : q < (⌊q⌋ : ℚ) + 1 := Int.lt_floor_add_one q
  rw [abs_le]
  unfold pyRound
  split
  · rename_i hlt
    constructor
    · linarith
    · linarith
  · rename_i hge
    have hge' : (1:ℚ)/2 ≤ q - ⌊q⌋ := le_of_not_lt hge
    split
    · constructor
      · push_cast
        linarith
      · push_cast
        linarith
    · rename_i h3
      have hle : q - ⌊q⌋ ≤ 1/2 := le_of_not_lt h3
      split
      · constructor
        · linarith
        · linarith
      · constructor
        · push_cast
          linarith
        · push_cast
          linarith

/-- Embedding of sensor.py `calculate_battery_percentage` (lines 275-305):
clamp the millivolt input to [3000, 4150], pick the piecewise-linear
segment, round. Arithmetic is exact over ℚ; every branch constant of the
source is reproduced verbatim, including `(voltage - 4150) / 150 * 17 + 83`
in the `voltage >= 4000` branch. -/
def calculate_battery_percentage (voltage_mv : ℤ) : ℤ :=
  let voltage : ℤ := max 3000 (min voltage_mv 4150)
  let percentage : ℚ :=
    if 4000 ≤ voltage then ((voltage : ℚ) - 4150) / 150 * 17 + 83
    else if 3900 ≤ voltage then ((voltage : ℚ) - 3900) / 100 * 26 + 67
    else if 3840 ≤ voltage then ((voltage : ℚ) - 3840) / 60 * 17 + 50
    else if 3760 ≤ voltage then ((voltage : ℚ) - 3760) / 80 * 16 + 34
    else if 3600 ≤ voltage then ((voltage : ℚ) - 3600) / 160 * 17 + 17
    else 0
  pyRound percentage

/-- Embedding of api.py `format_rssi` (lines 29-31): `(255 & raw_value) / 2 - 130`. -/
def format_rssi (raw_value : ℕ) : ℚ :=
  ((255 &&& raw_value : ℕ) : ℚ) / 2 - 130

/-- Embedding of api.py `rssi_to_percent` (lines 34-40) in exact rational
arithmetic; 1.35 = 27/20 and -1.5 = -3/2 exactly. The source computes in
Python floats: for byte-derived inputs the two agree except possibly where
the exact formula value is an exact .5 tie (the bytes 26, 78, 130, 182),
where accumulated float error rather than round-half-even decides the
final round; the C2 theorems therefore assert only properties that hold
on either side of those ties. -/
def rssi_to_percent (dbm : ℚ) : ℤ :=
  if -3/2 ≤ dbm then 100
  else pyRound (100 * max 0 (min 1 (27/20 * (1 - dbm / (-130)))))

/-- The signal percent derived from a raw RSSI byte, as the source composes
`format_rssi` and `rssi_to_percent` (api.py lines 386-387). -/
def signal_percent_of_raw (r : ℕ) : ℤ :=
  rssi_to_percent (format_rssi r)

lemma pyRound_bounds (q : ℚ) (h0 : 0 ≤ q) (h100 : q ≤ 100) :
    0 ≤ pyRound q ∧ pyRound q ≤ 100 := by
  constructor
  · exact le_trans (Int.le_floor.mpr (by exact_mod_cast h0)) (le_pyRound q)
  · exact le_trans (pyRound_le_ceil q) (Int.ceil_le.mpr (by exact_mod_cast h100))

/-- C1: the battery curve evaluated at and around its segment boundaries.
Just below 3600 it is 0 and at 3600, 3760, 3840, 3900 it is 17, 34, 50, 67
as the claim states, but the top segment's formula
`(voltage - 4150) / 150 * 17 + 83` makes the function jump from 93 at 3999
down to 66 at 4000 and reach only 83 at 4150, contradicting both the claim
(83 at 4000, 100 at 4150) and the function's own docstring
("3000mV (0%) to 4150mV (100%)"). -/
theorem battery_curve_boundary_evaluation :
    calculate_battery_percentage 3599 = 0 ∧
    calculate_battery_percentage 3600 = 17 ∧
    calculate_battery_percentage 3760 = 34 ∧
    calculate_battery_percentage 3840 = 50 ∧
    calculate_battery_percentage 3900 = 67 ∧
    calculate_battery_percentage 3999 = 93 ∧
    calculate_battery_percentage 4000 = 66 ∧
    calculate_battery_percentage 4150 = 83 := by
  refine ⟨?_, ?_, ?_, ?_, ?_, ?_, ?_, ?_⟩
  · show pyRound _ = 0
    rw [show (max 3000 (min (3599:ℤ) 4150)) = 3599 by decide]
    norm_num
    exact_mod_cast pyRound_intCast 0
  · show pyRound _ = 17
    rw [show (max 3000 (min (3600:ℤ) 4150)) = 3600 by decide]
    norm_num
    exact_mod_cast pyRound_intCast 17
  · show pyRound _ = 34
    rw [show (max 3000 (min (3760:ℤ) 4150)) = 3760 by decide]
    norm_num
    exact_mod_cast pyRound_intCast 34
  · show pyRound _ = 50
    rw [show (max 3000 (min (3840:ℤ) 4150)) = 3840 by decide]
    norm_num
    exact_mod_cast pyRound_intCast 50
  · show pyRound _ = 67
    rw [show (max 3000 (min (3900:ℤ) 4150)) = 3900 by decide]
    norm_num
    exact_mod_cast pyRound_intCast 67
  · show pyRound _ = 93
    rw [show (max 3000 (min (3999:ℤ) 4150)) = 3999 by decide]
    norm_num
    rw [show (93:ℤ) = 92 + 1 by norm_num]
    exact pyRound_eq_high _ 92 (by norm_num) (by norm_num)
  · show pyRound _ = 66
    rw [show (max 3000 (min (4000:ℤ) 4150)) = 4000 by decide]
    norm_num
    exact_mod_cast pyRound_intCast 66
  · show pyRound _ = 83
    rw [show (max 3000 (min (4150:ℤ) 4150)) = 4150 by decide]
    norm_num
    exact_mod_cast pyRound_intCast 83

/-- C9: for every integer input the battery percentage function behaves as
if the input were first clamped to [3000, 4150], and its result always lies
in [0, 100]; it is total and never produces a negative or above-100 value. -/
theorem battery_percentage_clamped_and_bounded (v : ℤ) :
    calculate_battery_percentage v = calculate_battery_percentage (max 3000 (min v 4150)) ∧
    0 ≤ calculate_battery_percentage v ∧ calculate_battery_percentage v ≤ 100 := by
  have hclamp : max 3000 (min (max 3000 (min v 4150)) 4150) = max 3000 (min v 4150) := by
    omega
  constructor
  · simp only [calculate_battery_percentage, hclamp]
  · set w : ℤ := max 3000 (min v 4150) with hw
    have hw1 : 3000 ≤ w := le_max_left _ _
    have hw2 : w ≤ 4150 := by omega
    have hw1q : (3000:ℚ) ≤ (w:ℚ) := by exact_mod_cast hw1
    have hw2q : (w:ℚ) ≤ 4150 := by exact_mod_cast hw2
    show 0 ≤ pyRound _ ∧ pyRound _ ≤ 100
    apply pyRound_bounds
    all_goals {
      split_ifs with h1 h2 h3 h4 h5
      · have h1q : (4000:ℚ) ≤ (w:ℚ) := by exact_mod_cast h1
        linarith
      · have h2q : (3900:ℚ) ≤ (w:ℚ) := by exact_mod_cast h2
        have h1q : (w:ℚ) < 4000 := by exact_mod_cast (by omega : w < 4000)
        linarith
      · have h3q : (3840:ℚ) ≤ (w:ℚ) := by exact_mod_cast h3
        have h2q : (w:ℚ) < 3900 := by exact_mod_cast (by omega : w < 3900)
        linarith
      · have h4q : (3760:ℚ) ≤ (w:ℚ) := by exact_mod_cast h4
        have h3q : (w:ℚ) < 3840 := by exact_mod_cast (by omega : w < 3840)
        linarith
      · have h5q : (3600:ℚ) ≤ (w:ℚ) := by exact_mod_cast h5
        have h4q : (w:ℚ) < 3760 := by exact_mod_cast (by omega : w < 3760)
        linarith
      · linarith
    }

/-- C2 counterexample: the raw RSSI byte 255 yields dBm = -5/2, which is
below the -3/2 threshold, yet the derived signal percentage is 100 (the
clamp term saturates at 1), so the percentage is not 100 only when
dBm is at least -3/2. -/
theorem rssi_percent_100_below_threshold :
    format_rssi 255 = -5/2 ∧ format_rssi 255 < -3/2 ∧
    signal_percent_of_raw 255 = 100 := by
  have hland : (255 &&& 255 : ℕ) = 255 := rfl
  have hfr : format_rssi 255 = -5/2 := by
    unfold format_rssi
    rw [hland]
    norm_num
  refine ⟨hfr, by rw [hfr]; norm_num, ?_⟩
  unfold signal_percent_of_raw rssi_to_percent
  rw [hfr, if_neg (by norm_num)]
  rw [min_eq_left (by norm_num : (1:ℚ) ≤ 27/20 * (1 - (-5/2) / (-130)))]
  rw [max_eq_right (by norm_num : (0:ℚ) ≤ 1)]
  norm_num
  exact_mod_cast pyRound_intCast 100

/-- C2, amended: for every raw byte r in [0, 255], dBm(r) = r/2 - 130
(exact also in float arithmetic) never reaches the -3/2 threshold — its
maximum is -5/2 — so the shortcut branch never fires and the percentage is
a rounding of a float evaluation of 100 * clamp(1.35 * (1 - dBm / -130),
0, 1), hence an integer within 51/100 of the exact value of that
expression (the float error is far below 1/100 and rounding moves at most
1/2). Every integer in that window equals 100 exactly when r is at least
192, so the program's percentage — whichever way its float evaluation
falls on the four exact .5 ties — is 100 iff r is at least 192, not iff
dBm is at least -3/2; the exact-arithmetic model lies in the same window
and satisfies the same characterization. -/
theorem rssi_percent_threshold_robust (r : ℕ) (hr : r ≤ 255) :
    format_rssi r = (r : ℚ) / 2 - 130 ∧
    format_rssi r < -3/2 ∧
    (∀ p : ℤ,
      |(p : ℚ) - 100 * max 0 (min 1 (27/20 * (1 - format_rssi r / (-130))))| ≤ 51/100 →
      (p = 100 ↔ 192 ≤ r)) ∧
    (signal_percent_of_raw r = 100 ↔ 192 ≤ r) := by
  have hland : (255 &&& r : ℕ) = r := by
    rw [Nat.land_comm, show (255:ℕ) = 2^8 - 1 from rfl,
      Nat.and_pow_two_sub_one_eq_mod]
    exact Nat.mod_eq_of_lt (by omega)
  have hfr : format_rssi r = (r : ℚ) / 2 - 130 := by
    unfold format_rssi
    rw [hland]
  have hrq : (r : ℚ) ≤ 255 := by exact_mod_cast hr
  have hrq0 : (0:ℚ) ≤ (r : ℚ) := Nat.cast_nonneg r
  have hlt : format_rssi r < -3/2 := by rw [hfr]; linarith
  have harg : 27/20 * (1 - format_rssi r / (-130)) = 27 * (r : ℚ) / 5200 := by
    rw [hfr]; ring
  have hrobust : ∀ p : ℤ,
      |(p : ℚ) - 100 * max 0 (min 1 (27/20 * (1 - format_rssi r / (-130))))| ≤ 51/100 →
      (p = 100 ↔ 192 ≤ r) := by
    intro p hp
    rw [harg, abs_le] at hp
    obtain ⟨hp1, hp2⟩ := hp
    rcases lt_or_le r 192 with h191 | h192
    · have h191' : r ≤ 191 := by omega
      have h191q : (r : ℚ) ≤ 191 := by exact_mod_cast h191'
      have hle1 : 27 * (r : ℚ) / 5200 ≤ 1 := by linarith
      have hge0 : (0:ℚ) ≤ 27 * (r : ℚ) / 5200 := by positivity
      rw [min_eq_right hle1, max_eq_right hge0] at hp1 hp2
      have hplt : (p : ℚ) < 100 := by linarith
      have hpne : p ≠ 100 := by
        intro he
        rw [he] at hplt
        norm_num at hplt
      constructor
      · intro he
        exact absurd he hpne
      · intro hge
        omega
    · rcases lt_or_le r 193 with h192e | h193
      · have hre : r = 192 := by omega
        subst hre
        have hle1 : 27 * ((192:ℕ) : ℚ) / 5200 ≤ 1 := by norm_num
        have hge0 : (0:ℚ) ≤ 27 * ((192:ℕ) : ℚ) / 5200 := by norm_num
        rw [min_eq_right hle1, max_eq_right hge0] at hp1 hp2
        push_cast at hp1 hp2
        have ha : 99 < p := by
          have : (99:ℚ) < (p : ℚ) := by linarith
          exact_mod_cast this
        have hb : p < 101 := by
          have : (p : ℚ) < 101 := by linarith
          exact_mod_cast this
        have hpe : p = 100 := by omega
        exact ⟨fun _ => by omega, fun _ => hpe⟩
      · have h193q : (193:ℚ) ≤ (r : ℚ) := by exact_mod_cast h193
        have hge1 : (1:ℚ) ≤ 27 * (r : ℚ) / 5200 := by linarith
        rw [min_eq_left hge1, max_eq_right (by norm_num : (0:ℚ) ≤ 1)] at hp1 hp2
        have ha : 99 < p := by
          have : (99:ℚ) < (p : ℚ) := by linarith
          exact_mod_cast this
        have hb : p < 101 := by
          have : (p : ℚ) < 101 := by linarith
          exact_mod_cast this
        have hpe : p = 100 := by omega
        exact ⟨fun _ => by omega, fun _ => hpe⟩
  refine ⟨hfr, hlt, hrobust, ?_⟩
  have hsp : signal_percent_of_raw r =
      pyRound (100 * max 0 (min 1 (27/20 * (1 - format_rssi r / (-130))))) := by
    unfold signal_percent_of_raw rssi_to_percent
    rw [if_neg (not_le.mpr hlt)]
  have hclose := pyRound_close (100 * max 0 (min 1 (27/20 * (1 - format_rssi r / (-130)))))
  rw [← hsp] at hclose
  exact hrobust (signal_percent_of_raw r) (le_trans hclose (by norm_num))

/-- Witness for the amended C2 theorem at the concrete byte 200. -/
theorem rssi_percent_threshold_robust_witness : signal_percent_of_raw 200 = 100 :=
  ((rssi_percent_threshold_robust 200 (by norm_num)).2.2.2).mpr (by norm_num)

/-- The cached form of a device's last position; api.py stores the wire
fields posLat/posLong/timeDb under the keys lat/lng/timeDb (lines 794-798).
A `none` field models a Python None value stored by the remap. -/
structure CachedPos where
  lat : Option ℤ
  lng : Option ℤ
  timeDb : Option ℤ
  deriving DecidableEq

/-- The lastPos object of a realtime delta, with the wire key names. -/
structure WirePos where
  posLat : Option ℤ
  posLong : Option ℤ
  timeDb : Option ℤ
  deriving DecidableEq

/-- A cached device record. The source keeps devices as JSON dicts; this
structure tracks the keys that `_handle_device_update` and the claims
touch (an Option field is none when the key is absent). Opaque JSON values
(rssi, battery, fifo payloads) are modelled atomically by ℤ because the
handler copies them verbatim. -/
structure Device where
  lastPos : Option CachedPos
  lastRssi : Option ℤ
  bat : Option ℤ
  fifo : Option ℤ
  mode : Option ℤ
  modeSet : Option ℤ
  hw : Option String
  sw : Option String
  deriving DecidableEq

/-- A realtime delta payload as decoded from a STOMP MESSAGE body.
`id` is the Python `str()` of the payload's id field when present
(so `some ""` models an id that stringifies to the empty string);
`mode` and `hw` stand for wire keys that `_handle_device_update`
never reads. -/
structure UpdatePayload where
  id : Option String
  lastPos : Option WirePos
  lastRssi : Option ℤ
  bat : Option ℤ
  fiFo : Option ℤ
  mode : Option ℤ
  hw : Option String
  deriving DecidableEq

/-- The in-place mutation of one cached device performed by
api.py `_handle_device_update` (lines 791-813): only the four wire keys
lastPos (remapped to lat/lng/timeDb), lastRssi, bat and fiFo (stored as
fifo) are copied when present; every other cached key is left as is. -/
def mergeDevice (d : Device) (data : UpdatePayload) : Device :=
  { d with
    lastPos := match data.lastPos with
      | some wp => some { lat := wp.posLat, lng := wp.posLong, timeDb := wp.timeDb }
      | none => d.lastPos
    lastRssi := match data.lastRssi with
      | some v => some v
      | none => d.lastRssi
    bat := match data.bat with
      | some v => some v
      | none => d.bat
    fifo := match data.fiFo with
      | some v => some v
      | none => d.fifo }

/-- Lookup in the device cache (`device_id in self._devices` /
`self._devices[device_id]`), modelled over an association list. -/
def lookupDevice : List (String × Device) → String → Option Device
  | [], _ => none
  | p :: rest, k => if p.1 = k then some p.2 else lookupDevice rest k

/-- In-place replacement of the device stored under key k. -/
def updateCache (cache : List (String × Device)) (k : String) (d : Device) :
    List (String × Device) :=
  cache.map (fun p => if p.1 = k then (k, d) else p)

/-- Embedding of api.py `_handle_device_update` (lines 776-820): stringify
the id (empty when absent), bail out on an empty id, merge into the cache
only when the id is already cached, and always notify the callbacks with
the device id and payload. The returned list holds the notifications that
`_notify_callbacks` delivers (update_type is the constant "websocket" and
is omitted). -/
def handle_device_update (cache : List (String × Device)) (data : UpdatePayload) :
    List (String × Device) × List (String × UpdatePayload) :=
  let device_id := data.id.getD ""
  if device_id = "" then (cache, [])
  else
    let cache' :=
      match lookupDevice cache device_id with
      | some d => updateCache cache device_id (mergeDevice d data)
      | none => cache
    (cache', [(device_id, data)])

lemma lookupDevice_updateCache_self (cache : List (String × Device)) (k : String)
    (d d0 : Device) (h : lookupDevice cache k = some d0) :
    lookupDevice (updateCache cache k d) k = some d := by
  induction cache with
  | nil => simp [lookupDevice] at h
  | cons p rest ih =>
    by_cases hp : p.1 = k
    · simp [updateCache, lookupDevice, hp]
    · simp only [lookupDevice, if_neg hp] at h
      simpa [updateCache, lookupDevice, hp] using ih h

lemma lookupDevice_updateCache_other (cache : List (String × Device)) (k k' : String)
    (d : Device) (h : k' ≠ k) :
    lookupDevice (updateCache cache k d) k' = lookupDevice cache k' := by
  have hk : ¬ ((k, d).1 = k') := fun he => h he.symm
  induction cache with
  | nil => rfl
  | cons p rest ih =>
    by_cases hp : p.1 = k
    · have hpk' : ¬ p.1 = k' := by
        rw [hp]
        exact fun he => h he.symm
      show lookupDevice ((if p.1 = k then (k, d) else p) :: updateCache rest k d) k' = _
      rw [if_pos hp]
      show (if (k, d).1 = k' then some (k, d).2 else lookupDevice (updateCache rest k d) k') = _
      rw [if_neg hk]
      show _ = (if p.1 = k' then some p.2 else lookupDevice rest k')
      rw [if_neg hpk']
      exact ih
    · show lookupDevice ((if p.1 = k then (k, d) else p) :: updateCache rest k d) k' = _
      rw [if_neg hp]
      show (if p.1 = k' then some p.2 else lookupDevice (updateCache rest k d) k') =
        (if p.1 = k' then some p.2 else lookupDevice rest k')
      by_cases hp' : p.1 = k'
      · rw [if_pos hp', if_pos hp']
      · rw [if_neg hp', if_neg hp']
        exact ih

/-- A concrete cached device with mode 3 and hw "1.2", as in the spec's
merge example. -/
def exampleDevice : Device :=
  { lastPos := none, lastRssi := none, bat := some 3800, fifo := none,
    mode := some 3, modeSet := none, hw := some "1.2", sw := none }

/-- A realtime delta whose only present field is the wire key mode. -/
def modeOnlyUpdate : UpdatePayload :=
  { id := some "7", lastPos := none, lastRssi := none, bat := none, fiFo := none,
    mode := some 5, hw := none }

/-- A realtime delta carrying only a battery value, as in the spec's merge
example. -/
def batteryOnlyUpdate : UpdatePayload :=
  { id := some "7", lastPos := none, lastRssi := none, bat := some 4000, fiFo := none,
    mode := none, hw := none }

/-- A realtime delta whose id is not in the cache. -/
def unknownIdUpdate : UpdatePayload :=
  { id := some "99", lastPos := none, lastRssi := none, bat := some 4000, fiFo := none,
    mode := none, hw := none }

/-- A realtime delta with no id field at all. -/
def noIdUpdate : UpdatePayload :=
  { id := none, lastPos := none, lastRssi := none, bat := some 4000, fiFo := none,
    mode := none, hw := none }

/-- C5 counterexample: a delta whose present field is the wire key mode
leaves the cached device completely unchanged (the handler only copies
lastPos, lastRssi, bat and fiFo), so a field present in the update does
not in general overwrite the corresponding cached attribute. -/
theorem merge_ignores_present_mode_field :
    handle_device_update [("7", exampleDevice)] modeOnlyUpdate =
      ([("7", exampleDevice)], [("7", modeOnlyUpdate)]) ∧
    modeOnlyUpdate.mode = some 5 ∧ exampleDevice.mode = some 3 := by
  decide

/-- C5, amended: the merge is field-level only for the four recognized
wire keys lastPos (remapped to lat/lng/timeDb), lastRssi, bat and fiFo
(stored as fifo); a present lastPos replaces the cached position wholesale
after remapping; every other cached attribute (mode, modeSet, hw, sw)
keeps its previous value even when the update carries such a field, and
all other cache entries are untouched. -/
theorem merge_field_level_for_recognized_keys
    (cache : List (String × Device)) (u : UpdatePayload) (s : String) (d : Device)
    (hid : u.id = some s) (hne : s ≠ "") (hfound : lookupDevice cache s = some d) :
    (∀ k, k ≠ s → lookupDevice (handle_device_update cache u).1 k = lookupDevice cache k) ∧
    ∃ dm, lookupDevice (handle_device_update cache u).1 s = some dm ∧
      dm.mode = d.mode ∧ dm.modeSet = d.modeSet ∧ dm.hw = d.hw ∧ dm.sw = d.sw ∧
      dm.bat = (if u.bat.isSome then u.bat else d.bat) ∧
      dm.lastRssi = (if u.lastRssi.isSome then u.lastRssi else d.lastRssi) ∧
      dm.fifo = (if u.fiFo.isSome then u.fiFo else d.fifo) ∧
      dm.lastPos = (match u.lastPos with
        | some wp => some { lat := wp.posLat, lng := wp.posLong, timeDb := wp.timeDb }
        | none => d.lastPos) := by
  have hdid : u.id.getD "" = s := by rw [hid]; rfl
  have hcache1 : (handle_device_update cache u).1 =
      updateCache cache s (mergeDevice d u) := by
    simp only [handle_device_update, hdid, if_neg hne, hfound]
  constructor
  · intro k hk
    rw [hcache1]
    exact lookupDevice_updateCache_other cache s k (mergeDevice d u) hk
  · refine ⟨mergeDevice d u, ?_, rfl, rfl, rfl, rfl, ?_, ?_, ?_, ?_⟩
    · rw [hcache1]
      exact lookupDevice_updateCache_self cache s (mergeDevice d u) d hfound
    · cases hu : u.bat <;> simp [mergeDevice, hu]
    · cases hu : u.lastRssi <;> simp [mergeDevice, hu]
    · cases hu : u.fiFo <;> simp [mergeDevice, hu]
    · cases hu : u.lastPos <;> simp [mergeDevice, hu]

/-- Witness for the amended C5 theorem: the spec's own example, merging a
battery-only delta onto a device with mode 3 and hw "1.2". -/
theorem merge_field_level_witness :
    ∃ dm, lookupDevice
        (handle_device_update [("7", exampleDevice)] batteryOnlyUpdate).1 "7" = some dm ∧
      dm.mode = some 3 ∧ dm.hw = some "1.2" ∧ dm.bat = some 4000 := by
  obtain ⟨-, dm, hlk, hmode, -, hhw, -, hbat, -, -, -⟩ :=
    merge_field_level_for_recognized_keys [("7", exampleDevice)] batteryOnlyUpdate "7"
      exampleDevice rfl (by decide) (by decide)
  refine ⟨dm, hlk, ?_, ?_, ?_⟩
  · rw [hmode]; rfl
  · rw [hhw]; rfl
  · rw [hbat]; rfl

/-- C6: every delta carrying a (non-empty) device id triggers exactly one
notification with that id and the payload, whether or not the id is in the
device cache; when the id is unknown the cache is left unchanged. -/
theorem update_notifies_regardless_of_cache
    (cache : List (String × Device)) (u : UpdatePayload) (s : String)
    (hid : u.id = some s) (hne : s ≠ "") :
    (handle_device_update cache u).2 = [(s, u)] ∧
    (lookupDevice cache s = none → (handle_device_update cache u).1 = cache) := by
  have hdid : u.id.getD "" = s := by rw [hid]; rfl
  constructor
  · simp only [handle_device_update, hdid, if_neg hne]
  · intro h
    simp only [handle_device_update, hdid, if_neg hne, h]

/-- Witness for the C6 theorem: an unknown id is notified and the cache is
untouched. -/
theorem update_notifies_witness :
    (handle_device_update [("1", exampleDevice)] unknownIdUpdate).2 =
      [("99", unknownIdUpdate)] ∧
    (handle_device_update [("1", exampleDevice)] unknownIdUpdate).1 =
      [("1", exampleDevice)] := by
  have h := update_notifies_regardless_of_cache [("1", exampleDevice)] unknownIdUpdate
    "99" rfl (by decide)
  exact ⟨h.1, h.2 (by decide)⟩

/-- C10: a delta with no id field, or whose id stringifies to the empty
string, leaves the cache unchanged and produces no notification. -/
theorem missing_or_empty_id_is_noop (cache : List (String × Device)) (u : UpdatePayload)
    (h : u.id = none ∨ u.id = some "") :
    handle_device_update cache u = (cache, []) := by
  have hdid : u.id.getD "" = "" := by
    rcases h with h | h <;> rw [h] <;> rfl
  simp [handle_device_update, hdid]

/-- Witness for the C10 theorem at a concrete cache and id-less payload. -/
theorem missing_id_noop_witness :
    handle_device_update [("7", exampleDevice)] noIdUpdate =
      ([("7", exampleDevice)], []) :=
  missing_or_empty_id_is_noop [("7", exampleDevice)] noIdUpdate (Or.inl rfl)

/-- Outcome of api.py `authenticate` (lines 112-142): authError models
raising PetTracerAuthError, apiError models raising PetTracerApiError
(including the aiohttp.ClientError handler), success models returning
True. -/
inductive AuthOutcome
  | authError
  | apiError
  | success
  deriving DecidableEq

/-- The token state owned by the api client: `_token` and `_token_expires`
(expiry modelled as a parsed timestamp in seconds). -/
structure TokenState where
  token : Option String
  tokenExpires : Option ℤ
  deriving DecidableEq

/-- Embedding of api.py `authenticate` (lines 112-142). Inputs model the
login HTTP exchange: netFail is an aiohttp.ClientError during the request,
status the HTTP status, accessToken/expires the parsed response fields
(expires already converted from its ISO-8601 string). On status 401 it
fails with authError; on any other status that is not exactly 200 it fails
with apiError; on 200 it stores the token (even when absent in the
response) and the expiry only when one is present. -/
def authenticate (netFail : Bool) (status : ℕ) (accessToken : Option String)
    (expires : Option ℤ) (st : TokenState) : AuthOutcome × TokenState :=
  if netFail then (.apiError, st)
  else if status = 401 then (.authError, st)
  else if status ≠ 200 then (.apiError, st)
  else (.success,
    { token := accessToken,
      tokenExpires := if expires.isSome then expires else st.tokenExpires })

/-- C4 counterexample: a 204 response is a 2xx status, yet authenticate
fails with an ApiError instead of succeeding, because the code accepts
only status exactly 200. -/
theorem authenticate_rejects_other_2xx :
    (authenticate false 204 (some "tok") (some 99) ⟨none, none⟩).1 = .apiError ∧
    200 ≤ 204 ∧ 204 < 300 ∧
    (authenticate false 204 (some "tok") (some 99) ⟨none, none⟩).2 = ⟨none, none⟩ := by
  decide

/-- C4, amended: authenticate fails with AuthError exactly when there is no
network failure and the status is 401; it fails with ApiError on any
network failure and on every status other than 401 and 200 (including 2xx
statuses such as 201 or 204); it succeeds exactly for status 200 without
network failure, and then stores the returned token and, when present, the
parsed expiry; on every failure the stored token state is unchanged. -/
theorem authenticate_outcome_characterization (netFail : Bool) (status : ℕ)
    (tok : Option String) (exp : Option ℤ) (st : TokenState) :
    ((authenticate netFail status tok exp st).1 = .authError ↔
      netFail = false ∧ status = 401) ∧
    ((authenticate netFail status tok exp st).1 = .apiError ↔
      netFail = true ∨ (status ≠ 401 ∧ status ≠ 200)) ∧
    ((authenticate netFail status tok exp st).1 = .success ↔
      netFail = false ∧ status = 200) ∧
    ((authenticate netFail status tok exp st).1 = .success →
      (authenticate netFail status tok exp st).2 =
        ⟨tok, if exp.isSome then exp else st.tokenExpires⟩) ∧
    ((authenticate netFail status tok exp st).1 ≠ .success →
      (authenticate netFail status tok exp st).2 = st) := by
  unfold authenticate
  cases netFail
  · by_cases h401 : status = 401
    · simp [h401]
    · by_cases h200 : status = 200
      · simp [h401, h200]
      · simp [h401, h200]
  · simp

/-- Witness for the amended C4 theorem: a 200 response with a token and
expiry succeeds and stores both. -/
theorem authenticate_outcome_witness :
    (authenticate false 200 (some "tok") (some 99) ⟨none, none⟩).1 = .success ∧
    (authenticate false 200 (some "tok") (some 99) ⟨none, none⟩).2 =
      ⟨some "tok", some 99⟩ := by
  have h := authenticate_outcome_characterization false 200 (some "tok") (some 99)
    ⟨none, none⟩
  have hs : (authenticate false 200 (some "tok") (some 99) ⟨none, none⟩).1 = .success :=
    h.2.2.1.mpr ⟨rfl, rfl⟩
  refine ⟨hs, ?_⟩
  have h2 := h.2.2.2.1 hs
  rw [h2]
  rfl

/-- Embedding of api.py `_is_token_valid` (lines 104-109): a token is valid
when both the token and its expiry are set and now is still more than the
5-minute buffer (300 seconds) before the expiry. -/
def is_token_valid (token : Option String) (tokenExpires : Option ℤ) (now : ℤ) : Bool :=
  match token, tokenExpires with
  | some _, some e => decide (now < e - 300)
  | _, _ => false

/-- Progress of one asyncio task running `_ensure_authenticated`
(api.py lines 144-147): ready means it has not run yet; awaitingLogin
means it found the token invalid and is suspended at the awaited login
HTTP request inside `authenticate`; finished means it returned. -/
inductive TaskPhase
  | ready
  | awaitingLogin
  | finished
  deriving DecidableEq

/-- Shared client state plus the phases of the concurrent
`_ensure_authenticated` callers. loginCount counts network login requests
issued. -/
structure EnsureState where
  token : Option String
  tokenExpires : Option ℤ
  loginCount : ℕ
  tasks : List TaskPhase
  deriving DecidableEq

/-- One cooperative scheduler step giving the CPU to task i, following the
source: the validity check and the decision to call `authenticate` happen
synchronously (no await between them), so a ready task either finishes
immediately (valid token) or issues its own login request and suspends at
the await; a task suspended at the await later resumes with the 200
response, stores the fresh token and expiry (a day ahead of now) and
finishes. There is no lock anywhere in `_ensure_authenticated` or
`authenticate`. -/
def ensureStep (now : ℤ) (st : EnsureState) (i : ℕ) : EnsureState :=
  match st.tasks.get? i with
  | some .ready =>
      if is_token_valid st.token st.tokenExpires now then
        { st with tasks := st.tasks.set i .finished }
      else
        { st with loginCount := st.loginCount + 1,
                  tasks := st.tasks.set i .awaitingLogin }
  | some .awaitingLogin =>
      { st with token := some "token", tokenExpires := some (now + 86400),
                tasks := st.tasks.set i .finished }
  | _ => st

/-- Runs a schedule (a list of task indices receiving the CPU in order). -/
def runEnsure (now : ℤ) (st : EnsureState) : List ℕ → EnsureState
  | [] => st
  | i :: rest => runEnsure now (ensureStep now st i) rest

/-- Two concurrent callers starting with no token at all (hence an expired
token per the 5-minute-buffer rule). -/
def twoCallersStart : EnsureState :=
  { token := none, tokenExpires := none, loginCount := 0,
    tasks := [.ready, .ready] }

/-- C3 counterexample: with two concurrent `_ensure_authenticated` callers
and an expired token, the interleaving in which both tasks run their
validity check before either login response arrives issues two network
login requests, not exactly one: the refresh is not single-flighted
(there is no lock in the source). -/
theorem ensure_authenticated_not_single_flighted :
    is_token_valid twoCallersStart.token twoCallersStart.tokenExpires 0 = false ∧
    (runEnsure 0 twoCallersStart [0, 1, 0, 1]).loginCount = 2 ∧
    (runEnsure 0 twoCallersStart [0, 1, 0, 1]).tasks = [.finished, .finished] := by
  decide

/-- Number of tasks still in the ready phase. -/
def readyCount : List TaskPhase → ℕ
  | [] => 0
  | .ready :: rest => readyCount rest + 1
  | _ :: rest => readyCount rest

lemma readyCount_set (l : List TaskPhase) (i : ℕ) (a b : TaskPhase)
    (h : l.get? i = some a) :
    readyCount (l.set i b) + (if a = .ready then 1 else 0) =
      readyCount l + (if b = .ready then 1 else 0) := by
  induction l generalizing i with
  | nil => simp at h
  | cons p rest ih =>
    cases i with
    | zero =>
      simp only [List.get?] at h
      cases h
      cases a <;> cases b <;> simp [readyCount]
    | succ j =>
      simp only [List.get?] at h
      have := ih j h
      cases p <;> simp [readyCount, List.set] <;> omega

lemma ensureStep_measure (now : ℤ) (st : EnsureState) (i : ℕ) :
    (ensureStep now st i).loginCount + readyCount (ensureStep now st i).tasks ≤
      st.loginCount + readyCount st.tasks := by
  cases hg : st.tasks.get? i with
  | none =>
    have he : ensureStep now st i = st := by
      unfold ensureStep
      rw [hg]
    rw [he]
  | some p =>
    cases p with
    | ready =>
      have he : ensureStep now st i =
          if is_token_valid st.token st.tokenExpires now then
            { st with tasks := st.tasks.set i .finished }
          else
            { st with loginCount := st.loginCount + 1,
                      tasks := st.tasks.set i .awaitingLogin } := by
        unfold ensureStep
        rw [hg]
      rw [he]
      by_cases hv : is_token_valid st.token st.tokenExpires now = true
      · rw [if_pos hv]
        have hrc := readyCount_set st.tasks i .ready .finished hg
        simp at hrc
        show st.loginCount + readyCount (st.tasks.set i .finished) ≤
          st.loginCount + readyCount st.tasks
        omega
      · rw [if_neg hv]
        have hrc := readyCount_set st.tasks i .ready .awaitingLogin hg
        simp at hrc
        show st.loginCount + 1 + readyCount (st.tasks.set i .awaitingLogin) ≤
          st.loginCount + readyCount st.tasks
        omega
    | awaitingLogin =>
      have he : ensureStep now st i =
          { st with token := some "token", tokenExpires := some (now + 86400),
                    tasks := st.tasks.set i .finished } := by
        unfold ensureStep
        rw [hg]
      rw [he]
      have hrc := readyCount_set st.tasks i .awaitingLogin .finished hg
      simp at hrc
      show st.loginCount + readyCount (st.tasks.set i .finished) ≤
        st.loginCount + readyCount st.tasks
      omega
    | finished =>
      have he : ensureStep now st i = st := by
        unfold ensureStep
        rw [hg]
      rw [he]

lemma runEnsure_measure (now : ℤ) (sched : List ℕ) (st : EnsureState) :
    (runEnsure now st sched).loginCount + readyCount (runEnsure now st sched).tasks ≤
      st.loginCount + readyCount st.tasks := by
  induction sched generalizing st with
  | nil => exact le_refl _
  | cons i rest ih =>
    exact le_trans (ih (ensureStep now st i)) (ensureStep_measure now st i)

lemma readyCount_replicate (n : ℕ) : readyCount (List.replicate n .ready) = n := by
  induction n with
  | zero => rfl
  | succ n ih =>
    rw [List.replicate_succ]
    show readyCount (List.replicate n .ready) + 1 = n + 1
    rw [ih]

/-- C3, amended: without a lock, n concurrent `_ensure_authenticated`
callers that start with an expired token can each issue their own network
login request; under every schedule the number of login requests is at
most n (each caller logs in at most once), and the two-caller interleaving
of the counterexample reaches that bound, so "exactly one login" does not
hold. -/
theorem ensure_authenticated_login_bound (now : ℤ) (sched : List ℕ) (n : ℕ) :
    (runEnsure now
      { token := none, tokenExpires := none, loginCount := 0,
        tasks := List.replicate n .ready } sched).loginCount ≤ n := by
  have h := runEnsure_measure now sched
    { token := none, tokenExpires := none, loginCount := 0,
      tasks := List.replicate n .ready }
  simp only [readyCount_replicate] at h
  omega

/-- One step of Python str.split("\n"): prepend character c to the first
line of an already-split tail. -/
def consLine (c : Char) : List (List Char) → List (List Char)
  | [] => [[c]]
  | l :: ls => (c :: l) :: ls

/-- Python str.split("\n") over a list of characters. -/
def splitNl : List Char → List (List Char)
  | [] => [[]]
  | c :: rest => if c = '\n' then [] :: splitNl rest else consLine c (splitNl rest)

/-- Python "\n".join over lists of characters. -/
def joinNl : List (List Char) → List Char
  | [] => []
  | [l] => l
  | l :: l2 :: ls => l ++ '\n' :: joinNl (l2 :: ls)

/-- The whitespace set of Python str.strip(). -/
def pyIsSpace (c : Char) : Bool :=
  c = ' ' || c = '\t' || c = '\n' || c = '\r' || c = '\x0b' || c = '\x0c'

/-- `not line.strip()`: the line is empty or entirely whitespace
(api.py line 752). -/
def isBlankLine (l : List Char) : Bool := l.all pyIsSpace

/-- Python body.rstrip("\x00") (api.py line 760). -/
def rstripNul (l : List Char) : List Char :=
  (l.reverse.dropWhile (fun c => c = '\x00')).reverse

/-- The body extraction of `_parse_stomp_frame` (api.py lines 747-760):
scan the split lines for the first blank one and join every following line
back with newlines; none models the "No body found" warning path. -/
def findBody : List (List Char) → Option (List Char)
  | [] => none
  | l :: ls => if isBlankLine l then some (joinNl ls) else findBody ls

/-- Python str.startswith over lists of characters. -/
def startsWithL : List Char → List Char → Bool
  | [], _ => true
  | _ :: _, [] => false
  | p :: ps, c :: cs => p = c && startsWithL ps cs

/-- The STOMP commands the decoder and encoder mention, as character
lists. -/
def cmdCONNECTED : List Char := ['C', 'O', 'N', 'N', 'E', 'C', 'T', 'E', 'D']

def cmdMESSAGE : List Char := ['M', 'E', 'S', 'S', 'A', 'G', 'E']

def cmdERROR : List Char := ['E', 'R', 'R', 'O', 'R']

def cmdSEND : List Char := ['S', 'E', 'N', 'D']

/-- What `_parse_stomp_frame` does with a frame; connected also triggers
the subscribe sequence and message bodies are handed to json.loads and
`_handle_device_update`, neither of which affects the text-level
round-trip this models. -/
inductive StompAction
  | connected
  | message (body : List Char)
  | malformedMessage
  | stompError
  | ignored
  deriving DecidableEq

/-- Embedding of api.py `_parse_stomp_frame` (lines 716-774): empty frames
return immediately, the command is recognized only by prefix match against
CONNECTED, MESSAGE and ERROR (anything else falls through all branches),
headers are never parsed or returned, and for MESSAGE frames the body is
the newline-join of the lines after the first blank line with trailing
NULs stripped. -/
def parse_stomp_frame (frame : List Char) : StompAction :=
  if frame = [] then .ignored
  else if startsWithL cmdCONNECTED frame then .connected
  else if startsWithL cmdMESSAGE frame then
    match findBody (splitNl frame) with
    | some b => .message (rstripNul b)
    | none => .malformedMessage
  else if startsWithL cmdERROR frame then .stompError
  else .ignored

/-- The STOMP frame construction used by `_send_stomp_connect`,
`_send_stomp_subscribe` and `_send_app_subscribe` (api.py lines 618-683),
generalized over command, headers and body exactly as spec section 4.1
describes encodeStompFrame: COMMAND newline, one key:value line per
header, a blank line, then the body followed by a NUL. -/
def encodeStompFrame (cmd : List Char) (headers : List (List Char × List Char))
    (body : List Char) : List Char :=
  cmd ++ '\n' ::
    headers.foldr (fun kv acc => kv.1 ++ ':' :: kv.2 ++ '\n' :: acc)
      ('\n' :: (body ++ ['\x00']))

lemma splitNl_ne_nil (s : List Char) : splitNl s ≠ [] := by
  cases s with
  | nil => simp [splitNl]
  | cons c rest =>
    simp only [splitNl]
    split
    · simp
    · cases h : splitNl rest with
      | nil => simp [consLine]
      | cons l ls => simp [consLine]

lemma joinNl_splitNl (s : List Char) : joinNl (splitNl s) = s := by
  induction s with
  | nil => rfl
  | cons c rest ih =>
    simp only [splitNl]
    by_cases hc : c = '\n'
    · rw [if_pos hc]
      cases hr : splitNl rest with
      | nil => exact absurd hr (splitNl_ne_nil rest)
      | cons l ls =>
        rw [hr] at ih
        subst hc
        show ([] : List Char) ++ '\n' :: joinNl (l :: ls) = '\n' :: rest
        rw [List.nil_append, ih]
    · rw [if_neg hc]
      cases hr : splitNl rest with
      | nil => exact absurd hr (splitNl_ne_nil rest)
      | cons l ls =>
        rw [hr] at ih
        cases ls with
        | nil =>
          show joinNl [c :: l] = c :: rest
          show c :: l = c :: rest
          rw [show l = joinNl [l] from rfl, ih]
        | cons m ms =>
          show (c :: l) ++ '\n' :: joinNl (m :: ms) = c :: rest
          show c :: (l ++ '\n' :: joinNl (m :: ms)) = c :: rest
          rw [show l ++ '\n' :: joinNl (m :: ms) = joinNl (l :: m :: ms) from rfl, ih]

lemma splitNl_append (a b : List Char) (h : '\n' ∉ a) :
    splitNl (a ++ '\n' :: b) = a :: splitNl b := by
  induction a with
  | nil =>
    show splitNl ('\n' :: b) = [] :: splitNl b
    simp [splitNl]
  | cons c a' ih =>
    have hc : c ≠ '\n' := fun he => h (he ▸ List.mem_cons_self c a')
    have ha' : '\n' ∉ a' := fun hm => h (List.mem_cons_of_mem c hm)
    show splitNl (c :: (a' ++ '\n' :: b)) = (c :: a') :: splitNl b
    simp only [splitNl]
    rw [if_neg hc, ih ha']
    rfl

lemma splitNl_header_block (hs : List (List Char × List Char)) (tail : List Char)
    (hh : ∀ kv ∈ hs, '\n' ∉ kv.1 ∧ '\n' ∉ kv.2) :
    splitNl (hs.foldr (fun kv acc => kv.1 ++ ':' :: kv.2 ++ '\n' :: acc)
        ('\n' :: tail)) =
      (hs.map (fun kv => kv.1 ++ ':' :: kv.2)) ++ [] :: splitNl tail := by
  induction hs with
  | nil =>
    show splitNl ('\n' :: tail) = [] :: splitNl tail
    simp [splitNl]
  | cons kv hs' ih =>
    have hkv := hh kv (List.mem_cons_self kv hs')
    have hh' : ∀ p ∈ hs', '\n' ∉ p.1 ∧ '\n' ∉ p.2 :=
      fun p hp => hh p (List.mem_cons_of_mem kv hp)
    have hline : '\n' ∉ kv.1 ++ ':' :: kv.2 := by
      intro hm
      rcases List.mem_append.mp hm with hm1 | hm2
      · exact hkv.1 hm1
      · rcases List.mem_cons.mp hm2 with hm3 | hm4
        · exact absurd hm3.symm (by decide)
        · exact hkv.2 hm4
    show splitNl (kv.1 ++ ':' :: kv.2 ++ '\n' ::
        hs'.foldr (fun kv acc => kv.1 ++ ':' :: kv.2 ++ '\n' :: acc) ('\n' :: tail)) = _
    rw [show kv.1 ++ ':' :: kv.2 ++ '\n' ::
        hs'.foldr (fun kv acc => kv.1 ++ ':' :: kv.2 ++ '\n' :: acc) ('\n' :: tail) =
        (kv.1 ++ ':' :: kv.2) ++ '\n' ::
        hs'.foldr (fun kv acc => kv.1 ++ ':' :: kv.2 ++ '\n' :: acc) ('\n' :: tail)
      from by rw [List.append_assoc]]
    rw [splitNl_append _ _ hline, ih hh']
    rfl

lemma isBlankLine_header (k v : List Char) : isBlankLine (k ++ ':' :: v) = false := by
  unfold isBlankLine
  rw [List.all_append]
  have hcolon : pyIsSpace ':' = false := by decide
  show (k.all pyIsSpace && ((':' :: v).all pyIsSpace)) = false
  rw [List.all_cons, hcolon]
  simp

lemma findBody_after_headers (ls rest : List (List Char))
    (h : ∀ l ∈ ls, isBlankLine l = false) :
    findBody (ls ++ [] :: rest) = some (joinNl rest) := by
  induction ls with
  | nil =>
    show findBody ([] :: rest) = some (joinNl rest)
    unfold findBody
    rw [if_pos (show isBlankLine [] = true from rfl)]
  | cons l ls' ih =>
    have hl := h l (List.mem_cons_self l ls')
    have h' : ∀ p ∈ ls', isBlankLine p = false :=
      fun p hp => h p (List.mem_cons_of_mem l hp)
    show findBody (l :: (ls' ++ [] :: rest)) = some (joinNl rest)
    unfold findBody
    rw [if_neg (by rw [hl]; exact Bool.false_ne_true)]
    exact ih h'

lemma rstripNul_append_nul (body : List Char) (h : body.getLast? ≠ some '\x00') :
    rstripNul (body ++ ['\x00']) = body := by
  unfold rstripNul
  rw [List.reverse_append]
  show ((['\x00'] ++ body.reverse).dropWhile (fun c => c = '\x00')).reverse = body
  rw [show (['\x00'] ++ body.reverse) = '\x00' :: body.reverse from rfl]
  rw [List.dropWhile_cons]
  rw [if_pos (by decide : ((fun c => (c = '\x00' : Bool)) '\x00') = true)]
  have hself : body.reverse.dropWhile (fun c => c = '\x00') = body.reverse := by
    cases hb : body.reverse with
    | nil => rfl
    | cons d t =>
      have hd : d ≠ '\x00' := by
        intro he
        apply h
        rw [← List.head?_reverse, hb, he]
        rfl
      rw [List.dropWhile_cons, if_neg (by simp [hd])]
  rw [hself, List.reverse_reverse]

lemma startsWithL_append (p rest : List Char) : startsWithL p (p ++ rest) = true := by
  induction p with
  | nil => rfl
  | cons c p' ih =>
    show (c = c && startsWithL p' (p' ++ rest)) = true
    rw [ih]
    simp

lemma startsWithL_ne_head (c d : Char) (p s : List Char) (hcd : c ≠ d) :
    startsWithL (c :: p) (d :: s) = false := by
  show (c = d && startsWithL p s) = false
  simp [hcd]

/-- C8 counterexample: encoding a SEND frame (the very command the client's
own encoder produces for /app/subscribe) and decoding it recovers nothing:
the decoder only recognizes CONNECTED, MESSAGE and ERROR prefixes, so the
command, the headers and the body of the round-trip are all lost. -/
theorem stomp_roundtrip_fails_for_send :
    parse_stomp_frame
      (encodeStompFrame cmdSEND [(['d', 'e', 's', 't'], ['/', 'a', 'p', 'p'])]
        ['X', '\n', 'Y']) = .ignored ∧
    StompAction.ignored ≠ .message ['X', '\n', 'Y'] := by
  constructor
  · rfl
  · intro h
    cases h

/-- C8, amended: the decoder discards headers and recognizes commands only
by prefix, so the full round-trip of the claim fails; what does hold is
body recovery for MESSAGE frames: for every header map whose keys and
values contain no newline and every body (embedded newlines allowed) that
does not end in a NUL character, decoding the encoded MESSAGE frame yields
exactly the original body. -/
theorem stomp_message_body_roundtrip
    (headers : List (List Char × List Char)) (body : List Char)
    (hh : ∀ kv ∈ headers, '\n' ∉ kv.1 ∧ '\n' ∉ kv.2)
    (hb : body.getLast? ≠ some '\x00') :
    parse_stomp_frame (encodeStompFrame cmdMESSAGE headers body) =
      .message body := by
  have hsplit : splitNl (encodeStompFrame cmdMESSAGE headers body) =
      cmdMESSAGE :: ((headers.map (fun kv => kv.1 ++ ':' :: kv.2)) ++
        [] :: splitNl (body ++ ['\x00'])) := by
    unfold encodeStompFrame
    rw [splitNl_append cmdMESSAGE _ (by decide), splitNl_header_block headers _ hh]
  have hblank : ∀ l ∈ cmdMESSAGE :: headers.map (fun kv => kv.1 ++ ':' :: kv.2),
      isBlankLine l = false := by
    intro l hl
    rcases List.mem_cons.mp hl with hl1 | hl2
    · rw [hl1]; decide
    · obtain ⟨kv, _, hkv⟩ := List.mem_map.mp hl2
      rw [← hkv]
      exact isBlankLine_header kv.1 kv.2
  have hfind : findBody (splitNl (encodeStompFrame cmdMESSAGE headers body)) =
      some (body ++ ['\x00']) := by
    rw [hsplit]
    rw [show cmdMESSAGE :: ((headers.map (fun kv => kv.1 ++ ':' :: kv.2)) ++
        [] :: splitNl (body ++ ['\x00'])) =
        (cmdMESSAGE :: headers.map (fun kv => kv.1 ++ ':' :: kv.2)) ++
        [] :: splitNl (body ++ ['\x00']) from rfl]
    rw [findBody_after_headers _ _ hblank, joinNl_splitNl]
  have hne : ¬ (encodeStompFrame cmdMESSAGE headers body = []) := by
    intro hcontra
    have := congrArg List.length hcontra
    simp [encodeStompFrame] at this
  have hM : ∃ t, encodeStompFrame cmdMESSAGE headers body = 'M' :: t := ⟨_, rfl⟩
  obtain ⟨t, ht⟩ := hM
  have hcon : startsWithL cmdCONNECTED (encodeStompFrame cmdMESSAGE headers body)
      = false := by
    rw [ht]
    exact startsWithL_ne_head 'C' 'M' _ _ (by decide)
  have hmsg : startsWithL cmdMESSAGE (encodeStompFrame cmdMESSAGE headers body)
      = true := by
    show startsWithL cmdMESSAGE (cmdMESSAGE ++ _) = true
    exact startsWithL_append _ _
  unfold parse_stomp_frame
  rw [if_neg hne, if_neg (by rw [hcon]; exact Bool.false_ne_true), if_pos hmsg, hfind]
  show StompAction.message (rstripNul (body ++ ['\x00'])) = .message body
  rw [rstripNul_append_nul body hb]

/-- Witness for the amended C8 theorem: a MESSAGE frame with one header and
a body containing an embedded newline round-trips its body. -/
theorem stomp_message_body_roundtrip_witness :
    parse_stomp_frame
      (encodeStompFrame cmdMESSAGE [(['s', 'u', 'b'], ['0'])] ['A', '\n', 'B']) =
      .message ['A', '\n', 'B'] :=
  stomp_message_body_roundtrip [(['s', 'u', 'b'], ['0'])] ['A', '\n', 'B']
    (by decide) (by decide)
